import Mathlib

/-!
Shallow embedding of the dispatch engine of the elevator simulator
(`src/core/state.rs`).  Floors (`i8` in the source) are modelled as `Int`;
the wall-clock quantities (`f64` in the source) are modelled as `Rat`,
idealising IEEE arithmetic as exact rational arithmetic.  The Rust
`HashSet<ElevatorRequest>` is modelled as a `List ElevatorRequest` holding
the elements of the set in the (unspecified) iteration order; the
reachability relations below include an explicit reordering step so that
every iteration order the hash set could present is covered.  The partial
`state_loop` (it can hit a fatal `panic` in its MOVING branch) returns an
`Option`: `none` models the panic.
-/

namespace ElevatorSim

inductive ElevatorRequestErr where
  | DUPLICATE
  | DENIED
  | CurrentFloor
deriving DecidableEq, Repr

inductive ElevatorFloorReachErr where
  | NotMoving
deriving DecidableEq, Repr

inductive ElevatorDirection where
  | UP
  | DOWN
deriving DecidableEq, Repr

def ElevatorDirection.opposite : ElevatorDirection → ElevatorDirection
  | .UP => .DOWN
  | .DOWN => .UP

inductive ElevatorDoorsState where
  | OPEN
  | CLOSED
deriving DecidableEq, Repr

inductive ElevatorState where
  | MOVING (direction : ElevatorDirection)
  | WAITING (direction : ElevatorDirection) (doors : ElevatorDoorsState)
  | IDLE
deriving DecidableEq, Repr

structure ElevatorRequest where
  direction : ElevatorDirection
  floor : Int
deriving DecidableEq, Repr

/-- `ElevatorRequest::recalculate_direction`. -/
def ElevatorRequest.recalculate_direction (r : ElevatorRequest) (current_floor : Int) :
    ElevatorDirection :=
  if current_floor = r.floor then r.direction
  else if current_floor < r.floor then .UP
  else .DOWN

/-- The `Elevator` aggregate.  `request_buffer` holds the hash set contents in
iteration order. -/
structure Elevator where
  current_floor : Int
  target_floor : Int
  state : ElevatorState
  request_buffer : List ElevatorRequest
  waiting_time : Rat
deriving DecidableEq, Repr

/-- `Elevator::new`. -/
def Elevator.new : Elevator :=
  { current_floor := 0, target_floor := 0, state := .IDLE,
    request_buffer := [], waiting_time := 0 }

/-- `Iterator::min_by_key`: the first element with minimal key (ties keep the
earlier element). -/
def minByKey (f : ElevatorRequest → Int) : List ElevatorRequest → Option ElevatorRequest
  | [] => none
  | r :: l =>
    match minByKey f l with
    | none => some r
    | some b => if f r ≤ f b then some r else some b

/-- `Iterator::max_by_key`: the last element with maximal key (ties keep the
later element). -/
def maxByKey (f : ElevatorRequest → Int) : List ElevatorRequest → Option ElevatorRequest
  | [] => none
  | r :: l =>
    match maxByKey f l with
    | none => some r
    | some b => if f b < f r then some r else some b

/-- `HashSet::insert`: returns whether the value was newly inserted, together
with the updated set. -/
def hsInsert (r : ElevatorRequest) (l : List ElevatorRequest) : Bool × List ElevatorRequest :=
  if r ∈ l then (false, l) else (true, r :: l)

/-- `Elevator::hall_call`. -/
def Elevator.hall_call (e : Elevator) (request : ElevatorRequest) :
    Except ElevatorRequestErr Bool × Elevator :=
  match hsInsert request e.request_buffer with
  | (true, l) => (.ok true, { e with request_buffer := l })
  | (false, _) => (.error .DUPLICATE, e)

/-- `Elevator::car_call`. -/
def Elevator.car_call (e : Elevator) (floor : Int) :
    Except ElevatorRequestErr Bool × Elevator :=
  if e.current_floor = floor then (.error .CurrentFloor, e)
  else
    let direction := if e.current_floor < floor then ElevatorDirection.UP
                     else ElevatorDirection.DOWN
    let request : ElevatorRequest := ⟨direction, floor⟩
    match hsInsert request e.request_buffer with
    | (true, l) => (.ok true, { e with request_buffer := l })
    | (false, _) => (.error .DUPLICATE, e)

/-- The filter predicate inside `Elevator::get_target_on_the_way`. -/
def onTheWayPred (e : Elevator) (direction : ElevatorDirection) (is_at_target : Bool)
    (r : ElevatorRequest) : Bool :=
  decide (r.direction = direction) &&
    (if e.current_floor = r.floor then true
     else if e.current_floor < r.floor then
       decide (direction = ElevatorDirection.UP) &&
         (is_at_target || decide (r.floor ≤ e.target_floor))
     else
       decide (direction = ElevatorDirection.DOWN) &&
         (is_at_target || decide (e.target_floor ≤ r.floor)))

/-- `Elevator::get_target_on_the_way`. -/
def Elevator.get_target_on_the_way (e : Elevator) (direction : ElevatorDirection)
    (is_at_target : Bool) : Option ElevatorRequest :=
  minByKey (fun r => |e.current_floor - r.floor|)
    (e.request_buffer.filter (onTheWayPred e direction is_at_target))

/-- `Elevator::get_first_target_in_direction`. -/
def Elevator.get_first_target_in_direction (e : Elevator) (direction : ElevatorDirection) :
    Option ElevatorRequest :=
  let floors_in_direction := e.request_buffer.filter (fun r => decide (r.direction = direction))
  match direction with
  | .UP => minByKey (fun r => r.floor) floors_in_direction
  | .DOWN => maxByKey (fun r => r.floor) floors_in_direction

/-- `Elevator::get_best_target_with_opposite_direction`. -/
def Elevator.get_best_target_with_opposite_direction (e : Elevator)
    (direction : ElevatorDirection) : Option ElevatorRequest :=
  let floors_in_direction :=
    e.request_buffer.filter (fun r => decide (r.direction = direction.opposite))
  match direction with
  | .UP => maxByKey (fun r => r.floor)
      (floors_in_direction.filter (fun r => decide (e.current_floor ≤ r.floor)))
  | .DOWN => minByKey (fun r => r.floor)
      (floors_in_direction.filter (fun r => decide (r.floor ≤ e.current_floor)))

/-- `Elevator::get_next_request_on_idle`. -/
def Elevator.get_next_request_on_idle (e : Elevator) : Option ElevatorRequest :=
  match e.get_first_target_in_direction .UP with
  | some r => some r
  | none => e.get_first_target_in_direction .DOWN

/-- `Elevator::get_next_request_while_moving`. -/
def Elevator.get_next_request_while_moving (e : Elevator) (direction : ElevatorDirection) :
    Option ElevatorRequest :=
  match e.get_target_on_the_way direction false with
  | some r => some r
  | none => e.get_best_target_with_opposite_direction direction

/-- `Elevator::get_next_request_after_waiting`. -/
def Elevator.get_next_request_after_waiting (e : Elevator) (direction : ElevatorDirection) :
    Option ElevatorRequest :=
  match e.get_target_on_the_way direction true with
  | some r => some r
  | none =>
    match e.get_first_target_in_direction direction.opposite with
    | some r => some r
    | none => e.get_first_target_in_direction direction

/-- `Elevator::remove_finished_request`: removes `{direction, current_floor}`
or, only failing that, `{direction.opposite, current_floor}`. -/
def Elevator.remove_finished_request (e : Elevator) (direction : ElevatorDirection) : Elevator :=
  if (⟨direction, e.current_floor⟩ : ElevatorRequest) ∈ e.request_buffer then
    { e with request_buffer := e.request_buffer.erase ⟨direction, e.current_floor⟩ }
  else if (⟨direction.opposite, e.current_floor⟩ : ElevatorRequest) ∈ e.request_buffer then
    { e with request_buffer := e.request_buffer.erase ⟨direction.opposite, e.current_floor⟩ }
  else e

/-- `Elevator::state_loop` (`advance`).  The fatal branch of the MOVING case
(`panic` in the source) is modelled as `none`. -/
def Elevator.state_loop (e : Elevator) (dt_secs : Rat) : Option Elevator :=
  match e.state with
  | .IDLE =>
    match e.get_next_request_on_idle with
    | some request =>
      if e.current_floor = request.floor then
        some { e with target_floor := request.floor,
                      request_buffer := e.request_buffer.erase request,
                      state := .WAITING request.direction .CLOSED }
      else
        some { e with target_floor := request.floor,
                      state := .MOVING (request.recalculate_direction e.current_floor) }
    | none => some e
  | .WAITING direction _doors =>
    let e1 := if e.waiting_time = 0 then e.remove_finished_request direction else e
    let e2 := { e1 with waiting_time := e1.waiting_time + dt_secs }
    if 5 ≤ e2.waiting_time then
      let e3 := { e2 with waiting_time := 0 }
      match e3.get_next_request_after_waiting direction with
      | some request =>
        some { e3 with target_floor := request.floor,
                       state := .MOVING (request.recalculate_direction e3.current_floor) }
      | none => some { e3 with state := .IDLE }
    else some e2
  | .MOVING direction =>
    match e.get_next_request_while_moving direction with
    | some request => some { e with target_floor := request.floor }
    | none => none

/-- `Elevator::set_current_floor`. -/
def Elevator.set_current_floor (e : Elevator) (floor : Int) : Elevator :=
  { e with current_floor := floor }

/-- `Elevator::notify_reached_floor`. -/
def Elevator.notify_reached_floor (e : Elevator) (reached_floor : Int) :
    Except ElevatorFloorReachErr Unit × Elevator :=
  match e.state with
  | .MOVING direction =>
    let e1 := { e with current_floor := reached_floor }
    if e1.current_floor = e1.target_floor then
      (.ok (), { e1 with state := .WAITING direction .CLOSED })
    else
      (.ok (), e1)
  | _ => (.error .NotMoving, e)

/-- Whether the car state is a WAITING state. -/
def isWaitingState : ElevatorState → Bool
  | .WAITING _ _ => true
  | _ => false

/-- The candidate notion of the spec for the on-the-way selection: a request
matching `direction` whose floor is exactly the current floor, or lies between
the current floor and the target floor in the direction of travel when
`is_at_target` is false, or anywhere at/beyond the current position in the
direction of travel when `is_at_target` is true. -/
def onTheWayCandidate (e : Elevator) (direction : ElevatorDirection) (is_at_target : Bool)
    (r : ElevatorRequest) : Prop :=
  r.direction = direction ∧
    (r.floor = e.current_floor ∨
      (direction = .UP ∧ e.current_floor < r.floor ∧
        (is_at_target = true ∨ r.floor ≤ e.target_floor)) ∨
      (direction = .DOWN ∧ r.floor < e.current_floor ∧
        (is_at_target = true ∨ e.target_floor ≤ r.floor)))

/-- Invariant justifying totality of the moving policy: while MOVING, some
pending request sits exactly at the target floor, and the current floor has
not passed the target in the direction of travel. -/
def movingInv (e : Elevator) : Prop :=
  (e.state = .MOVING .UP →
    e.current_floor ≤ e.target_floor ∧ ∃ r ∈ e.request_buffer, r.floor = e.target_floor) ∧
  (e.state = .MOVING .DOWN →
    e.target_floor ≤ e.current_floor ∧ ∃ r ∈ e.request_buffer, r.floor = e.target_floor)

/-- Invariant for the dwell timer: the wait time is nonnegative, strictly below
the 5 second dwell bound, and zero outside of WAITING. -/
def timeInv (e : Elevator) : Prop :=
  0 ≤ e.waiting_time ∧ e.waiting_time < 5 ∧
    (isWaitingState e.state = false → e.waiting_time = 0)

/-- States reachable from the initial elevator through the public operations:
request calls, `advance` with nonnegative `dt` (when it does not hit the fatal
branch), floor-arrival notification with an arbitrary floor, and reordering of
the hash set iteration order. -/
inductive Reachable : Elevator → Prop where
  | init : Reachable Elevator.new
  | hall_call (e : Elevator) (r : ElevatorRequest) :
      Reachable e → Reachable (e.hall_call r).2
  | car_call (e : Elevator) (f : Int) :
      Reachable e → Reachable (e.car_call f).2
  | advance (e : Elevator) (dt : Rat) (e' : Elevator) :
      Reachable e → 0 ≤ dt → e.state_loop dt = some e' → Reachable e'
  | notify (e : Elevator) (f : Int) (res : Except ElevatorFloorReachErr Unit) (e' : Elevator) :
      Reachable e → e.notify_reached_floor f = (res, e') → Reachable e'
  | reorder (e : Elevator) (l : List ElevatorRequest) :
      Reachable e → e.request_buffer.Perm l → Reachable { e with request_buffer := l }

/-- Like `Reachable`, but floor-arrival notifications never overshoot the
target floor in the direction of travel (the physical contract of the
position-controller collaborator). -/
inductive ReachableSafe : Elevator → Prop where
  | init : ReachableSafe Elevator.new
  | hall_call (e : Elevator) (r : ElevatorRequest) :
      ReachableSafe e → ReachableSafe (e.hall_call r).2
  | car_call (e : Elevator) (f : Int) :
      ReachableSafe e → ReachableSafe (e.car_call f).2
  | advance (e : Elevator) (dt : Rat) (e' : Elevator) :
      ReachableSafe e → 0 ≤ dt → e.state_loop dt = some e' → ReachableSafe e'
  | notify (e : Elevator) (f : Int) (e' : Elevator) :
      ReachableSafe e →
      (e.state = .MOVING .UP → f ≤ e.target_floor) →
      (e.state = .MOVING .DOWN → e.target_floor ≤ f) →
      e.notify_reached_floor f = (.ok (), e') → ReachableSafe e'
  | reorder (e : Elevator) (l : List ElevatorRequest) :
      ReachableSafe e → e.request_buffer.Perm l → ReachableSafe { e with request_buffer := l }

/-! ### Helper lemmas about the selection primitives -/

theorem minByKey_eq_none {f : ElevatorRequest → Int} {l : List ElevatorRequest} :
    minByKey f l = none ↔ l = [] := by
  cases l with
  | nil => simp [minByKey]
  | cons r t =>
    simp only [minByKey]
    cases minByKey f t with
    | none => simp
    | some b => by_cases h : f r ≤ f b <;> simp [h]

theorem maxByKey_eq_none {f : ElevatorRequest → Int} {l : List ElevatorRequest} :
    maxByKey f l = none ↔ l = [] := by
  cases l with
  | nil => simp [maxByKey]
  | cons r t =>
    simp only [maxByKey]
    cases maxByKey f t with
    | none => simp
    | some b => by_cases h : f b < f r <;> simp [h]

theorem minByKey_mem {f : ElevatorRequest → Int} :
    ∀ {l : List ElevatorRequest} {a : ElevatorRequest}, minByKey f l = some a → a ∈ l := by
  intro l
  induction l with
  | nil => intro a h; simp [minByKey] at h
  | cons r t ih =>
    intro a h
    simp only [minByKey] at h
    cases ht : minByKey f t with
    | none =>
      rw [ht] at h
      simp only [Option.some.injEq] at h
      simp [← h]
    | some b =>
      rw [ht] at h
      by_cases hf : f r ≤ f b
      · simp only [hf, if_true, Option.some.injEq] at h
        simp [← h]
      · simp only [hf, if_false, Option.some.injEq] at h
        exact List.mem_cons_of_mem r (h ▸ ih ht)

theorem maxByKey_mem {f : ElevatorRequest → Int} :
    ∀ {l : List ElevatorRequest} {a : ElevatorRequest}, maxByKey f l = some a → a ∈ l := by
  intro l
  induction l with
  | nil => intro a h; simp [maxByKey] at h
  | cons r t ih =>
    intro a h
    simp only [maxByKey] at h
    cases ht : maxByKey f t with
    | none =>
      rw [ht] at h
      simp only [Option.some.injEq] at h
      simp [← h]
    | some b =>
      rw [ht] at h
      by_cases hf : f b < f r
      · simp only [hf, if_true, Option.some.injEq] at h
        simp [← h]
      · simp only [hf, if_false, Option.some.injEq] at h
        exact List.mem_cons_of_mem r (h ▸ ih ht)

theorem minByKey_le {f : ElevatorRequest → Int} :
    ∀ {l : List ElevatorRequest} {a : ElevatorRequest}, minByKey f l = some a →
      ∀ b ∈ l, f a ≤ f b := by
  intro l
  induction l with
  | nil => intro a h; simp [minByKey] at h
  | cons r t ih =>
    intro a h b hb
    simp only [minByKey] at h
    cases ht : minByKey f t with
    | none =>
      rw [ht] at h
      simp only [Option.some.injEq] at h
      rcases List.mem_cons.1 hb with hb | hb
      · rw [← h, hb]
      · exact absurd (minByKey_eq_none.1 ht ▸ hb) (List.not_mem_nil b)
    | some c =>
      rw [ht] at h
      by_cases hf : f r ≤ f c
      · simp only [hf, if_true, Option.some.injEq] at h
        rcases List.mem_cons.1 hb with hb | hb
        · rw [← h, hb]
        · exact le_trans (h ▸ hf) (ih ht b hb)
      · simp only [hf, if_false, Option.some.injEq] at h
        rcases List.mem_cons.1 hb with hb | hb
        · rw [hb]; exact le_of_lt (h ▸ lt_of_not_le hf)
        · exact h ▸ ih ht b hb

theorem maxByKey_ge {f : ElevatorRequest → Int} :
    ∀ {l : List ElevatorRequest} {a : ElevatorRequest}, maxByKey f l = some a →
      ∀ b ∈ l, f b ≤ f a := by
  intro l
  induction l with
  | nil => intro a h; simp [maxByKey] at h
  | cons r t ih =>
    intro a h b hb
    simp only [maxByKey] at h
    cases ht : maxByKey f t with
    | none =>
      rw [ht] at h
      simp only [Option.some.injEq] at h
      rcases List.mem_cons.1 hb with hb | hb
      · rw [← h, hb]
      · exact absurd (maxByKey_eq_none.1 ht ▸ hb) (List.not_mem_nil b)
    | some c =>
      rw [ht] at h
      by_cases hf : f c < f r
      · simp only [hf, if_true, Option.some.injEq] at h
        rcases List.mem_cons.1 hb with hb | hb
        · rw [← h, hb]
        · exact le_trans (ih ht b hb) (le_of_lt (h ▸ hf))
      · simp only [hf, if_false, Option.some.injEq] at h
        rcases List.mem_cons.1 hb with hb | hb
        · rw [hb]; exact h ▸ le_of_not_lt hf
        · exact h ▸ ih ht b hb

theorem minByKey_isSome {f : ElevatorRequest → Int} {l : List ElevatorRequest} :
    (minByKey f l).isSome ↔ l ≠ [] := by
  rw [Option.isSome_iff_ne_none, not_iff_not, minByKey_eq_none]

theorem maxByKey_isSome {f : ElevatorRequest → Int} {l : List ElevatorRequest} :
    (maxByKey f l).isSome ↔ l ≠ [] := by
  rw [Option.isSome_iff_ne_none, not_iff_not, maxByKey_eq_none]

/-! ### Specifications of the selection functions -/

theorem get_target_on_the_way_some_spec {e : Elevator} {direction : ElevatorDirection}
    {b : Bool} {r : ElevatorRequest} (h : e.get_target_on_the_way direction b = some r) :
    r ∈ e.request_buffer ∧ onTheWayPred e direction b r = true ∧
      ∀ s ∈ e.request_buffer, onTheWayPred e direction b s = true →
        |e.current_floor - r.floor| ≤ |e.current_floor - s.floor| := by
  unfold Elevator.get_target_on_the_way at h
  have hm := List.mem_filter.1 (minByKey_mem h)
  exact ⟨hm.1, hm.2, fun s hs hps => minByKey_le h s (List.mem_filter.2 ⟨hs, hps⟩)⟩

theorem get_target_on_the_way_isSome {e : Elevator} {direction : ElevatorDirection} {b : Bool} :
    (e.get_target_on_the_way direction b).isSome ↔
      ∃ r ∈ e.request_buffer, onTheWayPred e direction b r = true := by
  unfold Elevator.get_target_on_the_way
  rw [minByKey_isSome]
  constructor
  · intro h
    rcases List.exists_mem_of_ne_nil _ h with ⟨r, hr⟩
    exact ⟨r, (List.mem_filter.1 hr).1, (List.mem_filter.1 hr).2⟩
  · rintro ⟨r, hr, hp⟩
    exact List.ne_nil_of_mem (List.mem_filter.2 ⟨hr, hp⟩)

theorem get_first_target_some_spec {e : Elevator} {direction : ElevatorDirection}
    {r : ElevatorRequest} (h : e.get_first_target_in_direction direction = some r) :
    r ∈ e.request_buffer ∧ r.direction = direction ∧
      (direction = .UP → ∀ s ∈ e.request_buffer, s.direction = .UP → r.floor ≤ s.floor) ∧
      (direction = .DOWN → ∀ s ∈ e.request_buffer, s.direction = .DOWN → s.floor ≤ r.floor) := by
  unfold Elevator.get_first_target_in_direction at h
  cases direction with
  | UP =>
    have hm := List.mem_filter.1 (minByKey_mem h)
    refine ⟨hm.1, by simpa using hm.2, fun _ s hs hsd => ?_, by simp⟩
    exact minByKey_le h s (List.mem_filter.2 ⟨hs, by simpa using hsd⟩)
  | DOWN =>
    have hm := List.mem_filter.1 (maxByKey_mem h)
    refine ⟨hm.1, by simpa using hm.2, by simp, fun _ s hs hsd => ?_⟩
    exact maxByKey_ge h s (List.mem_filter.2 ⟨hs, by simpa using hsd⟩)

theorem get_first_target_isSome {e : Elevator} {direction : ElevatorDirection} :
    (e.get_first_target_in_direction direction).isSome ↔
      ∃ r ∈ e.request_buffer, r.direction = direction := by
  unfold Elevator.get_first_target_in_direction
  cases direction with
  | UP =>
    rw [minByKey_isSome]
    constructor
    · intro h
      rcases List.exists_mem_of_ne_nil _ h with ⟨r, hr⟩
      exact ⟨r, (List.mem_filter.1 hr).1, by simpa using (List.mem_filter.1 hr).2⟩
    · rintro ⟨r, hr, hd⟩
      exact List.ne_nil_of_mem (List.mem_filter.2 ⟨hr, by simpa using hd⟩)
  | DOWN =>
    rw [maxByKey_isSome]
    constructor
    · intro h
      rcases List.exists_mem_of_ne_nil _ h with ⟨r, hr⟩
      exact ⟨r, (List.mem_filter.1 hr).1, by simpa using (List.mem_filter.1 hr).2⟩
    · rintro ⟨r, hr, hd⟩
      exact List.ne_nil_of_mem (List.mem_filter.2 ⟨hr, by simpa using hd⟩)

theorem get_best_opp_some_spec {e : Elevator} {direction : ElevatorDirection}
    {r : ElevatorRequest} (h : e.get_best_target_with_opposite_direction direction = some r) :
    r ∈ e.request_buffer ∧ r.direction = direction.opposite ∧
      (direction = .UP → e.current_floor ≤ r.floor) ∧
      (direction = .DOWN → r.floor ≤ e.current_floor) := by
  unfold Elevator.get_best_target_with_opposite_direction at h
  cases direction with
  | UP =>
    have hm := List.mem_filter.1 (maxByKey_mem h)
    have hm2 := List.mem_filter.1 hm.1
    exact ⟨hm2.1, by simpa using hm2.2, fun _ => by simpa using hm.2, by simp⟩
  | DOWN =>
    have hm := List.mem_filter.1 (minByKey_mem h)
    have hm2 := List.mem_filter.1 hm.1
    exact ⟨hm2.1, by simpa using hm2.2, by simp, fun _ => by simpa using hm.2⟩

theorem get_best_opp_isSome_of {e : Elevator} {direction : ElevatorDirection}
    {r : ElevatorRequest} (hr : r ∈ e.request_buffer) (hd : r.direction = direction.opposite)
    (hup : direction = .UP → e.current_floor ≤ r.floor)
    (hdown : direction = .DOWN → r.floor ≤ e.current_floor) :
    (e.get_best_target_with_opposite_direction direction).isSome := by
  unfold Elevator.get_best_target_with_opposite_direction
  cases direction with
  | UP =>
    rw [maxByKey_isSome]
    exact List.ne_nil_of_mem (List.mem_filter.2
      ⟨List.mem_filter.2 ⟨hr, by simpa using hd⟩, by simpa using hup rfl⟩)
  | DOWN =>
    rw [minByKey_isSome]
    exact List.ne_nil_of_mem (List.mem_filter.2
      ⟨List.mem_filter.2 ⟨hr, by simpa using hd⟩, by simpa using hdown rfl⟩)

theorem onTheWayPred_spec {e : Elevator} {direction : ElevatorDirection} {b : Bool}
    {r : ElevatorRequest} (h : onTheWayPred e direction b r = true) :
    r.direction = direction ∧
      (direction = .UP → e.current_floor ≤ r.floor) ∧
      (direction = .DOWN → r.floor ≤ e.current_floor) := by
  unfold onTheWayPred at h
  split at h
  · rename_i heq
    refine ⟨by simpa using h, fun _ => le_of_eq heq, fun _ => le_of_eq heq.symm⟩
  · split at h
    · rename_i hne hlt
      simp only [Bool.and_eq_true, decide_eq_true_eq] at h
      refine ⟨h.1, fun _ => le_of_lt hlt, fun hdn => ?_⟩
      rw [h.2.1] at hdn
      exact absurd hdn (by simp)
    · rename_i hne hnlt
      simp only [Bool.and_eq_true, decide_eq_true_eq] at h
      refine ⟨h.1, fun hup => ?_, fun _ => le_of_not_lt hnlt⟩
      rw [h.2.1] at hup
      exact absurd hup (by simp)

theorem while_moving_some_spec {e : Elevator} {direction : ElevatorDirection}
    {r : ElevatorRequest} (h : e.get_next_request_while_moving direction = some r) :
    r ∈ e.request_buffer ∧
      (direction = .UP → e.current_floor ≤ r.floor) ∧
      (direction = .DOWN → r.floor ≤ e.current_floor) := by
  unfold Elevator.get_next_request_while_moving at h
  cases hw : e.get_target_on_the_way direction false with
  | some r0 =>
    rw [hw] at h
    simp only [Option.some.injEq] at h
    subst h
    have hs := get_target_on_the_way_some_spec hw
    exact ⟨hs.1, (onTheWayPred_spec hs.2.1).2.1, (onTheWayPred_spec hs.2.1).2.2⟩
  | none =>
    rw [hw] at h
    have hs := get_best_opp_some_spec h
    exact ⟨hs.1, hs.2.2.1, hs.2.2.2⟩

theorem while_moving_isSome_left {e : Elevator} {direction : ElevatorDirection}
    (h : (e.get_target_on_the_way direction false).isSome) :
    (e.get_next_request_while_moving direction).isSome := by
  unfold Elevator.get_next_request_while_moving
  cases hw : e.get_target_on_the_way direction false with
  | some r0 => simp
  | none => rw [hw] at h; simp at h

theorem while_moving_isSome_right {e : Elevator} {direction : ElevatorDirection}
    (h : (e.get_best_target_with_opposite_direction direction).isSome) :
    (e.get_next_request_while_moving direction).isSome := by
  unfold Elevator.get_next_request_while_moving
  cases hw : e.get_target_on_the_way direction false with
  | some r0 => simp
  | none => exact h

theorem after_waiting_some_mem {e : Elevator} {direction : ElevatorDirection}
    {r : ElevatorRequest} (h : e.get_next_request_after_waiting direction = some r) :
    r ∈ e.request_buffer := by
  unfold Elevator.get_next_request_after_waiting at h
  cases hw : e.get_target_on_the_way direction true with
  | some r0 =>
    rw [hw] at h
    simp only [Option.some.injEq] at h
    exact h ▸ (get_target_on_the_way_some_spec hw).1
  | none =>
    rw [hw] at h
    cases h1 : e.get_first_target_in_direction direction.opposite with
    | some r1 =>
      rw [h1] at h
      simp only [Option.some.injEq] at h
      exact h ▸ (get_first_target_some_spec h1).1
    | none =>
      rw [h1] at h
      exact (get_first_target_some_spec h).1

theorem on_idle_some_mem {e : Elevator} {r : ElevatorRequest}
    (h : e.get_next_request_on_idle = some r) : r ∈ e.request_buffer := by
  unfold Elevator.get_next_request_on_idle at h
  cases h1 : e.get_first_target_in_direction .UP with
  | some r1 =>
    rw [h1] at h
    simp only [Option.some.injEq] at h
    exact h ▸ (get_first_target_some_spec h1).1
  | none =>
    rw [h1] at h
    exact (get_first_target_some_spec h).1

theorem recalculate_direction_spec (r : ElevatorRequest) (c : Int) :
    (r.recalculate_direction c = .UP → c ≤ r.floor) ∧
      (r.recalculate_direction c = .DOWN → r.floor ≤ c) := by
  unfold ElevatorRequest.recalculate_direction
  split
  · rename_i heq
    exact ⟨fun _ => le_of_eq heq, fun _ => le_of_eq heq.symm⟩
  · split
    · rename_i hne hlt
      exact ⟨fun _ => le_of_lt hlt, fun h => by simp at h⟩
    · rename_i hne hnlt
      exact ⟨fun h => by simp at h, fun _ => le_of_not_lt hnlt⟩

/-! ### The moving invariant and its preservation -/

theorem hall_call_snd (e : Elevator) (r : ElevatorRequest) :
    (e.hall_call r).2 =
      if r ∈ e.request_buffer then e
      else { e with request_buffer := r :: e.request_buffer } := by
  unfold Elevator.hall_call hsInsert
  by_cases h : r ∈ e.request_buffer <;> simp [h]

theorem car_call_snd_cases (e : Elevator) (f : Int) :
    (e.car_call f).2 = e ∨
      ∃ r : ElevatorRequest,
        (e.car_call f).2 = { e with request_buffer := r :: e.request_buffer } := by
  unfold Elevator.car_call hsInsert
  by_cases h1 : e.current_floor = f
  · simp [h1]
  · by_cases h2 :
      (⟨if e.current_floor < f then .UP else .DOWN, f⟩ : ElevatorRequest) ∈ e.request_buffer
    · simp [h1, h2]
    · simp only [h1, if_false, h2]
      exact Or.inr ⟨_, rfl⟩

theorem remove_finished_request_frame (e : Elevator) (d : ElevatorDirection) :
    (e.remove_finished_request d).current_floor = e.current_floor ∧
      (e.remove_finished_request d).target_floor = e.target_floor ∧
      (e.remove_finished_request d).state = e.state ∧
      (e.remove_finished_request d).waiting_time = e.waiting_time := by
  unfold Elevator.remove_finished_request
  split_ifs <;> simp

theorem remove_finished_request_subset {e : Elevator} {d : ElevatorDirection}
    {r : ElevatorRequest} (h : r ∈ (e.remove_finished_request d).request_buffer) :
    r ∈ e.request_buffer := by
  unfold Elevator.remove_finished_request at h
  split_ifs at h
  · exact List.mem_of_mem_erase h
  · exact List.mem_of_mem_erase h
  · exact h

theorem movingInv_mono {e : Elevator} {l : List ElevatorRequest}
    (hsub : ∀ r ∈ e.request_buffer, r ∈ l) (hinv : movingInv e) :
    movingInv { e with request_buffer := l } := by
  constructor <;> intro hs
  · obtain ⟨hc, r0, hr0, hft⟩ := hinv.1 hs
    exact ⟨hc, r0, hsub r0 hr0, hft⟩
  · obtain ⟨hc, r0, hr0, hft⟩ := hinv.2 hs
    exact ⟨hc, r0, hsub r0 hr0, hft⟩

theorem movingInv_isSome {e : Elevator} {d : ElevatorDirection}
    (hinv : movingInv e) (hs : e.state = .MOVING d) :
    (e.get_next_request_while_moving d).isSome := by
  cases d with
  | UP =>
    obtain ⟨hc, r, hr, hft⟩ := hinv.1 hs
    cases hrd : r.direction with
    | UP =>
      apply while_moving_isSome_left
      rw [get_target_on_the_way_isSome]
      refine ⟨r, hr, ?_⟩
      rcases lt_or_eq_of_le (hft ▸ hc) with h | h
      · unfold onTheWayPred
        rw [if_neg (ne_of_lt h), if_pos h]
        simp [hrd, hft]
      · simp [onTheWayPred, hrd, ← h]
    | DOWN =>
      apply while_moving_isSome_right
      exact get_best_opp_isSome_of hr (by rw [hrd]; rfl)
        (fun _ => hft ▸ hc) (fun h => by simp at h)
  | DOWN =>
    obtain ⟨hc, r, hr, hft⟩ := hinv.2 hs
    cases hrd : r.direction with
    | DOWN =>
      apply while_moving_isSome_left
      rw [get_target_on_the_way_isSome]
      refine ⟨r, hr, ?_⟩
      rcases lt_or_eq_of_le (hft ▸ hc) with h | h
      · unfold onTheWayPred
        rw [if_neg (ne_of_gt h), if_neg (not_lt.2 (le_of_lt h))]
        simp [hrd, hft]
      · simp [onTheWayPred, hrd, h]
    | UP =>
      apply while_moving_isSome_right
      exact get_best_opp_isSome_of hr (by rw [hrd]; rfl)
        (fun h => by simp at h) (fun _ => hft ▸ hc)

theorem movingInv_of_reachableSafe {e : Elevator} (h : ReachableSafe e) : movingInv e := by
  induction h with
  | init =>
    constructor <;> intro hs <;> simp [Elevator.new] at hs
  | hall_call e r _ ih =>
    rw [hall_call_snd]
    by_cases hmem : r ∈ e.request_buffer
    · simpa [hmem] using ih
    · simp only [hmem, if_false]
      exact movingInv_mono (fun r0 hr0 => List.mem_cons_of_mem r hr0) ih
  | car_call e f _ ih =>
    rcases car_call_snd_cases e f with hc | ⟨r, hc⟩
    · rw [hc]; exact ih
    · rw [hc]
      exact movingInv_mono (fun r0 hr0 => List.mem_cons_of_mem r hr0) ih
  | advance e dt e' _ hdt hsl ih =>
    cases hstate : e.state with
    | IDLE =>
      simp only [Elevator.state_loop, hstate] at hsl
      cases hreq : e.get_next_request_on_idle with
      | none =>
        rw [hreq] at hsl
        simp only [Option.some.injEq] at hsl
        exact hsl ▸ ih
      | some req =>
        rw [hreq] at hsl
        by_cases heq : e.current_floor = req.floor
        · simp only [heq, if_true, Option.some.injEq] at hsl
          subst hsl
          constructor <;> intro hs <;> simp at hs
        · simp only [heq, if_false, Option.some.injEq] at hsl
          subst hsl
          constructor <;> intro hs
          · simp only at hs
            have hle := (recalculate_direction_spec req e.current_floor).1
              (ElevatorState.MOVING.injEq _ _ ▸ hs)
            exact ⟨hle, req, on_idle_some_mem hreq, rfl⟩
          · simp only at hs
            have hle := (recalculate_direction_spec req e.current_floor).2
              (ElevatorState.MOVING.injEq _ _ ▸ hs)
            exact ⟨hle, req, on_idle_some_mem hreq, rfl⟩
    | WAITING direction doors =>
      simp only [Elevator.state_loop, hstate] at hsl
      set e1 := if e.waiting_time = 0 then e.remove_finished_request direction else e with he1
      have he1state : e1.state = e.state := by
        rw [he1]; split_ifs with h
        · exact (remove_finished_request_frame e direction).2.2.1
        · rfl
      have he1cur : e1.current_floor = e.current_floor := by
        rw [he1]; split_ifs with h
        · exact (remove_finished_request_frame e direction).1
        · rfl
      by_cases hth : (5 : Rat) ≤ e1.waiting_time + dt
      · simp only [hth, if_true] at hsl
        cases hreq : Elevator.get_next_request_after_waiting
            { e1 with waiting_time := 0 } direction with
        | none =>
          rw [hreq] at hsl
          simp only [Option.some.injEq] at hsl
          subst hsl
          constructor <;> intro hs <;> simp at hs
        | some req =>
          rw [hreq] at hsl
          simp only [Option.some.injEq] at hsl
          subst hsl
          constructor <;> intro hs
          · simp only at hs
            have hle := (recalculate_direction_spec req e1.current_floor).1
              (ElevatorState.MOVING.injEq _ _ ▸ hs)
            exact ⟨hle, req, after_waiting_some_mem hreq, rfl⟩
          · simp only at hs
            have hle := (recalculate_direction_spec req e1.current_floor).2
              (ElevatorState.MOVING.injEq _ _ ▸ hs)
            exact ⟨hle, req, after_waiting_some_mem hreq, rfl⟩
      · simp only [hth, if_false, Option.some.injEq] at hsl
        subst hsl
        constructor <;> intro hs
        · rw [show ({ e1 with waiting_time := e1.waiting_time + dt } : Elevator).state
              = e1.state from rfl, he1state, hstate] at hs
          simp at hs
        · rw [show ({ e1 with waiting_time := e1.waiting_time + dt } : Elevator).state
              = e1.state from rfl, he1state, hstate] at hs
          simp at hs
    | MOVING direction =>
      simp only [Elevator.state_loop, hstate] at hsl
      cases hreq : e.get_next_request_while_moving direction with
      | none => rw [hreq] at hsl; simp at hsl
      | some req =>
        rw [hreq] at hsl
        simp only [Option.some.injEq] at hsl
        subst hsl
        obtain ⟨hmem, hup, hdown⟩ := while_moving_some_spec hreq
        constructor <;> intro hs
        · have hd : direction = .UP := by
            have := hs
            simp only at this
            exact ElevatorState.MOVING.injEq _ _ ▸ this
          exact ⟨hup hd, req, hmem, rfl⟩
        · have hd : direction = .DOWN := by
            have := hs
            simp only at this
            exact ElevatorState.MOVING.injEq _ _ ▸ this
          exact ⟨hdown hd, req, hmem, rfl⟩
  | notify e f e' _ hup hdown hn ih =>
    cases hstate : e.state with
    | IDLE => simp [Elevator.notify_reached_floor, hstate] at hn
    | WAITING d doors => simp [Elevator.notify_reached_floor, hstate] at hn
    | MOVING direction =>
      simp only [Elevator.notify_reached_floor, hstate] at hn
      by_cases hfeq : f = e.target_floor
      · rw [if_pos (by simpa using hfeq)] at hn
        have he' : _ = e' := congrArg Prod.snd hn
        rw [← he']
        constructor <;> intro hs <;> simp at hs
      · rw [if_neg (by simpa using hfeq)] at hn
        have he' : _ = e' := congrArg Prod.snd hn
        rw [← he']
        constructor <;> intro hs
        · have hd : direction = .UP := by
            have h2 := hs
            simp only at h2
            exact ElevatorState.MOVING.injEq _ _ ▸ h2
          refine ⟨?_, ?_⟩
          · exact hup (hd ▸ hstate)
          · obtain ⟨hc, r0, hr0, hft⟩ := ih.1 (hd ▸ hstate)
            exact ⟨r0, hr0, hft⟩
        · have hd : direction = .DOWN := by
            have h2 := hs
            simp only at h2
            exact ElevatorState.MOVING.injEq _ _ ▸ h2
          refine ⟨?_, ?_⟩
          · exact hdown (hd ▸ hstate)
          · obtain ⟨hc, r0, hr0, hft⟩ := ih.2 (hd ▸ hstate)
            exact ⟨r0, hr0, hft⟩
  | reorder e l _ hperm ih =>
    exact movingInv_mono (fun r0 hr0 => hperm.mem_iff.1 hr0) ih

/-! ### The dwell-timer invariant and its preservation -/

theorem timeInv_of_reachable {e : Elevator} (h : Reachable e) : timeInv e := by
  induction h with
  | init =>
    refine ⟨le_refl 0, by norm_num [Elevator.new], fun _ => rfl⟩
  | hall_call e r _ ih =>
    rw [hall_call_snd]
    split_ifs <;> exact ih
  | car_call e f _ ih =>
    rcases car_call_snd_cases e f with hc | ⟨r, hc⟩ <;> rw [hc] <;> exact ih
  | advance e dt e' _ hdt hsl ih =>
    cases hstate : e.state with
    | IDLE =>
      have hw0 : e.waiting_time = 0 := ih.2.2 (by rw [hstate]; rfl)
      simp only [Elevator.state_loop, hstate] at hsl
      cases hreq : e.get_next_request_on_idle with
      | none =>
        rw [hreq] at hsl
        simp only [Option.some.injEq] at hsl
        exact hsl ▸ ih
      | some req =>
        rw [hreq] at hsl
        by_cases heq : e.current_floor = req.floor
        · simp only [heq, if_true, Option.some.injEq] at hsl
          subst hsl
          exact ⟨ih.1, ih.2.1, fun _ => hw0⟩
        · simp only [heq, if_false, Option.some.injEq] at hsl
          subst hsl
          exact ⟨ih.1, ih.2.1, fun _ => hw0⟩
    | WAITING direction doors =>
      simp only [Elevator.state_loop, hstate] at hsl
      set e1 := if e.waiting_time = 0 then e.remove_finished_request direction else e with he1
      have he1wt : e1.waiting_time = e.waiting_time := by
        rw [he1]; split_ifs with h0
        · exact (remove_finished_request_frame e direction).2.2.2
        · rfl
      have he1state : e1.state = e.state := by
        rw [he1]; split_ifs with h0
        · exact (remove_finished_request_frame e direction).2.2.1
        · rfl
      by_cases hth : (5 : Rat) ≤ e1.waiting_time + dt
      · simp only [hth, if_true] at hsl
        cases hreq : Elevator.get_next_request_after_waiting
            { e1 with waiting_time := 0 } direction with
        | none =>
          rw [hreq] at hsl
          simp only [Option.some.injEq] at hsl
          subst hsl
          exact ⟨le_refl 0, by norm_num, fun _ => rfl⟩
        | some req =>
          rw [hreq] at hsl
          simp only [Option.some.injEq] at hsl
          subst hsl
          exact ⟨le_refl 0, by norm_num, fun _ => rfl⟩
      · simp only [hth, if_false, Option.some.injEq] at hsl
        subst hsl
        refine ⟨?_, ?_, ?_⟩
        · have : (0 : Rat) ≤ e.waiting_time + dt := add_nonneg ih.1 hdt
          rw [show ({ e1 with waiting_time := e1.waiting_time + dt } : Elevator).waiting_time
              = e1.waiting_time + dt from rfl, he1wt]
          exact this
        · rw [show ({ e1 with waiting_time := e1.waiting_time + dt } : Elevator).waiting_time
              = e1.waiting_time + dt from rfl]
          exact lt_of_not_le hth
        · intro hf
          rw [show ({ e1 with waiting_time := e1.waiting_time + dt } : Elevator).state
              = e1.state from rfl, he1state, hstate] at hf
          simp [isWaitingState] at hf
    | MOVING direction =>
      have hw0 : e.waiting_time = 0 := ih.2.2 (by rw [hstate]; rfl)
      simp only [Elevator.state_loop, hstate] at hsl
      cases hreq : e.get_next_request_while_moving direction with
      | none => rw [hreq] at hsl; simp at hsl
      | some req =>
        rw [hreq] at hsl
        simp only [Option.some.injEq] at hsl
        subst hsl
        exact ⟨ih.1, ih.2.1, fun _ => hw0⟩
  | notify e f res e' _ hn ih =>
    cases hstate : e.state with
    | IDLE =>
      simp only [Elevator.notify_reached_floor, hstate] at hn
      have he' : _ = e' := congrArg Prod.snd hn
      rw [← he']
      exact ih
    | WAITING d doors =>
      simp only [Elevator.notify_reached_floor, hstate] at hn
      have he' : _ = e' := congrArg Prod.snd hn
      rw [← he']
      exact ih
    | MOVING direction =>
      have hw0 : e.waiting_time = 0 := ih.2.2 (by rw [hstate]; rfl)
      simp only [Elevator.notify_reached_floor, hstate] at hn
      by_cases hfeq : f = e.target_floor
      · rw [if_pos (by simpa using hfeq)] at hn
        have he' : _ = e' := congrArg Prod.snd hn
        rw [← he']
        exact ⟨ih.1, ih.2.1, fun _ => hw0⟩
      · rw [if_neg (by simpa using hfeq)] at hn
        have he' : _ = e' := congrArg Prod.snd hn
        rw [← he']
        exact ⟨ih.1, ih.2.1, fun _ => hw0⟩
  | reorder e l _ hperm ih =>
    exact ih

/-! ### Claim C1 -/

/-- C1 (counterexample): the claim as stated is false.  From the initial state,
hall_call(UP, 10), one advance (entering MOVING(UP) with target 10) and a
notify_reached_floor(20) — a public operation with an arbitrary floor — yield a
reachable MOVING(UP) state in which the moving policy finds no request, so the
next advance hits the fatal branch, even though the request {UP, 10} that
caused MOVING is still pending. -/
theorem c1_panic_reachable_counterexample :
    Reachable ⟨20, 10, .MOVING .UP, [⟨.UP, 10⟩], 0⟩ ∧
      (⟨.UP, 10⟩ : ElevatorRequest) ∈
        (⟨20, 10, .MOVING .UP, [⟨.UP, 10⟩], 0⟩ : Elevator).request_buffer ∧
      Elevator.get_next_request_while_moving ⟨20, 10, .MOVING .UP, [⟨.UP, 10⟩], 0⟩ .UP = none ∧
      Elevator.state_loop ⟨20, 10, .MOVING .UP, [⟨.UP, 10⟩], 0⟩ 1 = none := by
  refine ⟨?_, by decide, by decide, by decide⟩
  have h0 : Reachable (Elevator.new.hall_call ⟨.UP, 10⟩).2 := .hall_call _ _ .init
  rw [show (Elevator.new.hall_call ⟨.UP, 10⟩).2 = ⟨0, 0, .IDLE, [⟨.UP, 10⟩], 0⟩ from by decide]
    at h0
  have h1 : Reachable ⟨0, 10, .MOVING .UP, [⟨.UP, 10⟩], 0⟩ :=
    .advance _ 0 _ h0 (le_refl 0) (by decide)
  exact .notify _ 20 (.ok ()) _ h1 rfl

/-- C1 (amended): for every state reachable through hall_call, car_call,
advance and notify_reached_floor where the notified floor never overshoots the
target floor in the direction of travel, whenever the car is MOVING(dir) the
moving policy finds at least one request, so the fatal-fault branch of the
MOVING case of advance is unreachable. -/
theorem c1_moving_policy_total {e : Elevator} {d : ElevatorDirection}
    (h : ReachableSafe e) (hs : e.state = .MOVING d) :
    (e.get_next_request_while_moving d).isSome ∧ ∀ dt : Rat, e.state_loop dt ≠ none := by
  have hinv := movingInv_of_reachableSafe h
  have hsome := movingInv_isSome hinv hs
  refine ⟨hsome, fun dt => ?_⟩
  simp only [Elevator.state_loop, hs]
  cases hreq : e.get_next_request_while_moving d with
  | none => rw [hreq] at hsome; simp at hsome
  | some req => simp

/-- Witness for C1 (amended) at a concrete safely-reachable MOVING state. -/
theorem c1_moving_policy_total_witness :
    (Elevator.get_next_request_while_moving ⟨0, 3, .MOVING .UP, [⟨.UP, 3⟩], 0⟩ .UP).isSome ∧
      ∀ dt : Rat, Elevator.state_loop ⟨0, 3, .MOVING .UP, [⟨.UP, 3⟩], 0⟩ dt ≠ none := by
  have h0 : ReachableSafe (Elevator.new.hall_call ⟨.UP, 3⟩).2 := .hall_call _ _ .init
  rw [show (Elevator.new.hall_call ⟨.UP, 3⟩).2 = ⟨0, 0, .IDLE, [⟨.UP, 3⟩], 0⟩ from by decide]
    at h0
  have h1 : ReachableSafe ⟨0, 3, .MOVING .UP, [⟨.UP, 3⟩], 0⟩ :=
    .advance _ 0 _ h0 (le_refl 0) (by decide)
  exact c1_moving_policy_total h1 rfl

/-! ### Frame lemma for advance -/

theorem state_loop_current_floor {e : Elevator} {dt : Rat} {e' : Elevator}
    (h : e.state_loop dt = some e') : e'.current_floor = e.current_floor := by
  cases hstate : e.state with
  | IDLE =>
    simp only [Elevator.state_loop, hstate] at h
    cases hreq : e.get_next_request_on_idle with
    | none =>
      rw [hreq] at h
      simp only [Option.some.injEq] at h
      rw [← h]
    | some req =>
      rw [hreq] at h
      by_cases heq : e.current_floor = req.floor
      · simp only [heq, if_true, Option.some.injEq] at h
        rw [← h]
        exact heq.symm
      · simp only [heq, if_false, Option.some.injEq] at h
        rw [← h]
  | WAITING direction doors =>
    simp only [Elevator.state_loop, hstate] at h
    set e1 := if e.waiting_time = 0 then e.remove_finished_request direction else e with he1
    have he1c : e1.current_floor = e.current_floor := by
      rw [he1]; split_ifs with h0
      · exact (remove_finished_request_frame e direction).1
      · rfl
    by_cases hth : (5 : Rat) ≤ e1.waiting_time + dt
    · simp only [hth, if_true] at h
      cases hreq : Elevator.get_next_request_after_waiting
          { e1 with waiting_time := 0 } direction with
      | none =>
        rw [hreq] at h
        simp only [Option.some.injEq] at h
        rw [← h]
        exact he1c
      | some req =>
        rw [hreq] at h
        simp only [Option.some.injEq] at h
        rw [← h]
        exact he1c
    · simp only [hth, if_false, Option.some.injEq] at h
      rw [← h]
      exact he1c
  | MOVING direction =>
    simp only [Elevator.state_loop, hstate] at h
    cases hreq : e.get_next_request_while_moving direction with
    | none => rw [hreq] at h; simp at h
    | some req =>
      rw [hreq] at h
      simp only [Option.some.injEq] at h
      rw [← h]

/-! ### Claim C7 -/

/-- C7: hall_call succeeds and adds the request exactly when no identical
request is pending; a duplicate is rejected with DUPLICATE leaving the whole
state unchanged; calling twice with identical arguments yields success then
DUPLICATE and grows the request set by exactly 1; and neither request
operation ever returns DENIED. -/
theorem c7_hall_call_spec (e : Elevator) (r : ElevatorRequest) (f : Int) :
    (r ∉ e.request_buffer →
      e.hall_call r = (.ok true, { e with request_buffer := r :: e.request_buffer }) ∧
      (e.hall_call r).2.request_buffer.length = e.request_buffer.length + 1 ∧
      (e.hall_call r).2.hall_call r = (.error .DUPLICATE, (e.hall_call r).2)) ∧
    (r ∈ e.request_buffer → e.hall_call r = (.error .DUPLICATE, e)) ∧
    (e.hall_call r).1 ≠ .error .DENIED ∧
    (e.car_call f).1 ≠ .error .DENIED := by
  refine ⟨fun hmem => ?_, fun hmem => ?_, ?_, ?_⟩
  · have h1 : e.hall_call r = (.ok true, { e with request_buffer := r :: e.request_buffer }) := by
      unfold Elevator.hall_call hsInsert
      simp [hmem]
    refine ⟨h1, ?_, ?_⟩
    · rw [h1]
      simp
    · rw [h1]
      unfold Elevator.hall_call hsInsert
      simp
  · unfold Elevator.hall_call hsInsert
    simp [hmem]
  · unfold Elevator.hall_call hsInsert
    by_cases hmem : r ∈ e.request_buffer <;> simp [hmem]
  · unfold Elevator.car_call hsInsert
    by_cases h1 : e.current_floor = f
    · simp [h1]
    · by_cases h2 : (⟨if e.current_floor < f then .UP else .DOWN, f⟩ : ElevatorRequest)
          ∈ e.request_buffer <;> simp [h1, h2]

/-- Witness for C7 at a concrete elevator and request. -/
theorem c7_hall_call_spec_witness :
    ((⟨.UP, 2⟩ : ElevatorRequest) ∉ Elevator.new.request_buffer →
      Elevator.new.hall_call ⟨.UP, 2⟩ =
        (.ok true, { Elevator.new with request_buffer := [⟨.UP, 2⟩] }) ∧
      (Elevator.new.hall_call ⟨.UP, 2⟩).2.request_buffer.length =
        Elevator.new.request_buffer.length + 1 ∧
      (Elevator.new.hall_call ⟨.UP, 2⟩).2.hall_call ⟨.UP, 2⟩ =
        (.error .DUPLICATE, (Elevator.new.hall_call ⟨.UP, 2⟩).2)) ∧
    ((⟨.UP, 2⟩ : ElevatorRequest) ∈ Elevator.new.request_buffer →
      Elevator.new.hall_call ⟨.UP, 2⟩ = (.error .DUPLICATE, Elevator.new)) ∧
    (Elevator.new.hall_call ⟨.UP, 2⟩).1 ≠ .error .DENIED ∧
    (Elevator.new.car_call 5).1 ≠ .error .DENIED :=
  c7_hall_call_spec Elevator.new ⟨.UP, 2⟩ 5

/-! ### Claim C8 -/

/-- C8: car_call at the current floor fails with CURRENT_FLOOR and leaves the
state unchanged; otherwise it is exactly hall_call with direction UP when the
floor is above the current floor and DOWN when below, including DUPLICATE
rejection with unchanged state. -/
theorem c8_car_call_spec (e : Elevator) (f : Int) :
    (f = e.current_floor → e.car_call f = (.error .CurrentFloor, e)) ∧
    (e.current_floor < f → e.car_call f = e.hall_call ⟨.UP, f⟩) ∧
    (f < e.current_floor → e.car_call f = e.hall_call ⟨.DOWN, f⟩) := by
  refine ⟨fun heq => ?_, fun hlt => ?_, fun hgt => ?_⟩
  · unfold Elevator.car_call
    simp [heq]
  · unfold Elevator.car_call Elevator.hall_call
    rw [if_neg (ne_of_lt hlt), if_pos hlt]
  · unfold Elevator.car_call Elevator.hall_call
    rw [if_neg (ne_of_gt hgt), if_neg (not_lt.2 (le_of_lt hgt))]

/-- Witness for C8 at concrete floors. -/
theorem c8_car_call_spec_witness :
    ((0 : Int) = Elevator.new.current_floor →
      Elevator.new.car_call 0 = (.error .CurrentFloor, Elevator.new)) ∧
    (Elevator.new.current_floor < 0 → Elevator.new.car_call 0 = Elevator.new.hall_call ⟨.UP, 0⟩) ∧
    ((0 : Int) < Elevator.new.current_floor →
      Elevator.new.car_call 0 = Elevator.new.hall_call ⟨.DOWN, 0⟩) :=
  c8_car_call_spec Elevator.new 0

/-! ### Claim C9 -/

/-- C9: notify_reached_floor succeeds exactly when the car is MOVING; on
success it sets the current floor to the notified floor and transitions to
WAITING(same direction, CLOSED) exactly when the new current floor equals the
target floor, otherwise stays MOVING; otherwise it fails with NOT_MOVING
leaving the whole state unchanged. -/
theorem c9_notify_reached_floor_spec (e : Elevator) (f : Int) :
    (∀ d, e.state = .MOVING d →
      (f = e.target_floor →
        e.notify_reached_floor f =
          (.ok (), { e with current_floor := f, state := .WAITING d .CLOSED })) ∧
      (f ≠ e.target_floor →
        e.notify_reached_floor f = (.ok (), { e with current_floor := f }))) ∧
    ((∀ d, e.state ≠ .MOVING d) →
      e.notify_reached_floor f = (.error .NotMoving, e)) ∧
    ((e.notify_reached_floor f).1 = .ok () ↔ ∃ d, e.state = .MOVING d) := by
  cases hstate : e.state with
  | IDLE =>
    refine ⟨fun d hd => by simp at hd, fun _ => ?_, ?_⟩
    · unfold Elevator.notify_reached_floor
      rw [hstate]
    · unfold Elevator.notify_reached_floor
      rw [hstate]
      simp
  | WAITING d0 doors =>
    refine ⟨fun d hd => by simp at hd, fun _ => ?_, ?_⟩
    · unfold Elevator.notify_reached_floor
      rw [hstate]
    · unfold Elevator.notify_reached_floor
      rw [hstate]
      simp
  | MOVING d0 =>
    refine ⟨fun d hd => ?_, fun hno => absurd rfl (hno d0), ?_⟩
    · have hdd : d = d0 := by
        exact (ElevatorState.MOVING.injEq _ _ ▸ hd).symm
      subst hdd
      constructor
      · intro hfeq
        unfold Elevator.notify_reached_floor
        rw [hstate]
        simp only
        rw [if_pos (by simpa using hfeq)]
      · intro hfne
        unfold Elevator.notify_reached_floor
        rw [hstate]
        simp only
        rw [if_neg (by simpa using hfne)]
    · constructor
      · intro _
        exact ⟨d0, rfl⟩
      · intro _
        unfold Elevator.notify_reached_floor
        rw [hstate]
        simp only
        by_cases hfeq : f = e.target_floor
        · rw [if_pos (by simpa using hfeq)]
        · rw [if_neg (by simpa using hfeq)]

/-- Witness for C9 at a concrete MOVING state. -/
theorem c9_notify_reached_floor_spec_witness :
    (∀ d, (⟨0, 3, .MOVING .UP, [⟨.UP, 3⟩], 0⟩ : Elevator).state = .MOVING d →
      ((3 : Int) = (⟨0, 3, .MOVING .UP, [⟨.UP, 3⟩], 0⟩ : Elevator).target_floor →
        Elevator.notify_reached_floor ⟨0, 3, .MOVING .UP, [⟨.UP, 3⟩], 0⟩ 3 =
          (.ok (), { (⟨0, 3, .MOVING .UP, [⟨.UP, 3⟩], 0⟩ : Elevator) with
            current_floor := 3, state := .WAITING d .CLOSED })) ∧
      ((3 : Int) ≠ (⟨0, 3, .MOVING .UP, [⟨.UP, 3⟩], 0⟩ : Elevator).target_floor →
        Elevator.notify_reached_floor ⟨0, 3, .MOVING .UP, [⟨.UP, 3⟩], 0⟩ 3 =
          (.ok (), { (⟨0, 3, .MOVING .UP, [⟨.UP, 3⟩], 0⟩ : Elevator) with
            current_floor := 3 }))) ∧
    ((∀ d, (⟨0, 3, .MOVING .UP, [⟨.UP, 3⟩], 0⟩ : Elevator).state ≠ .MOVING d) →
      Elevator.notify_reached_floor ⟨0, 3, .MOVING .UP, [⟨.UP, 3⟩], 0⟩ 3 =
        (.error .NotMoving, ⟨0, 3, .MOVING .UP, [⟨.UP, 3⟩], 0⟩)) ∧
    ((Elevator.notify_reached_floor ⟨0, 3, .MOVING .UP, [⟨.UP, 3⟩], 0⟩ 3).1 = .ok () ↔
      ∃ d, (⟨0, 3, .MOVING .UP, [⟨.UP, 3⟩], 0⟩ : Elevator).state = .MOVING d) :=
  c9_notify_reached_floor_spec ⟨0, 3, .MOVING .UP, [⟨.UP, 3⟩], 0⟩ 3

/-! ### Claim C10 -/

/-- C10: advance never modifies the current floor in any state; the setter
overwrites the current floor unconditionally with no other field changed and
no state transition; the request calls never modify the current floor; and
notify_reached_floor leaves the elevator unchanged when not MOVING. -/
theorem c10_current_floor_frame (e : Elevator) (dt : Rat) (f : Int) (r : ElevatorRequest) :
    (∀ e', e.state_loop dt = some e' → e'.current_floor = e.current_floor) ∧
    (e.set_current_floor f).current_floor = f ∧
    (e.set_current_floor f).target_floor = e.target_floor ∧
    (e.set_current_floor f).state = e.state ∧
    (e.set_current_floor f).request_buffer = e.request_buffer ∧
    (e.set_current_floor f).waiting_time = e.waiting_time ∧
    (e.hall_call r).2.current_floor = e.current_floor ∧
    (e.car_call f).2.current_floor = e.current_floor ∧
    ((∀ d, e.state ≠ .MOVING d) → (e.notify_reached_floor f).2 = e) := by
  refine ⟨fun e' h => state_loop_current_floor h, rfl, rfl, rfl, rfl, rfl, ?_, ?_, ?_⟩
  · rw [hall_call_snd]
    split_ifs <;> rfl
  · rcases car_call_snd_cases e f with hc | ⟨r0, hc⟩ <;> rw [hc]
  · intro hno
    cases hstate : e.state with
    | IDLE =>
      unfold Elevator.notify_reached_floor
      rw [hstate]
    | WAITING d0 doors =>
      unfold Elevator.notify_reached_floor
      rw [hstate]
    | MOVING d0 => exact absurd hstate (hno d0)

/-- Witness for C10 at a concrete elevator. -/
theorem c10_current_floor_frame_witness :
    (∀ e', Elevator.state_loop ⟨0, 3, .MOVING .UP, [⟨.UP, 3⟩], 0⟩ 1 = some e' →
      e'.current_floor = (⟨0, 3, .MOVING .UP, [⟨.UP, 3⟩], 0⟩ : Elevator).current_floor) ∧
    (Elevator.set_current_floor ⟨0, 3, .MOVING .UP, [⟨.UP, 3⟩], 0⟩ 7).current_floor = 7 ∧
    (Elevator.set_current_floor ⟨0, 3, .MOVING .UP, [⟨.UP, 3⟩], 0⟩ 7).target_floor =
      (⟨0, 3, .MOVING .UP, [⟨.UP, 3⟩], 0⟩ : Elevator).target_floor ∧
    (Elevator.set_current_floor ⟨0, 3, .MOVING .UP, [⟨.UP, 3⟩], 0⟩ 7).state =
      (⟨0, 3, .MOVING .UP, [⟨.UP, 3⟩], 0⟩ : Elevator).state ∧
    (Elevator.set_current_floor ⟨0, 3, .MOVING .UP, [⟨.UP, 3⟩], 0⟩ 7).request_buffer =
      (⟨0, 3, .MOVING .UP, [⟨.UP, 3⟩], 0⟩ : Elevator).request_buffer ∧
    (Elevator.set_current_floor ⟨0, 3, .MOVING .UP, [⟨.UP, 3⟩], 0⟩ 7).waiting_time =
      (⟨0, 3, .MOVING .UP, [⟨.UP, 3⟩], 0⟩ : Elevator).waiting_time ∧
    (Elevator.hall_call ⟨0, 3, .MOVING .UP, [⟨.UP, 3⟩], 0⟩ ⟨.DOWN, 1⟩).2.current_floor =
      (⟨0, 3, .MOVING .UP, [⟨.UP, 3⟩], 0⟩ : Elevator).current_floor ∧
    (Elevator.car_call ⟨0, 3, .MOVING .UP, [⟨.UP, 3⟩], 0⟩ 7).2.current_floor =
      (⟨0, 3, .MOVING .UP, [⟨.UP, 3⟩], 0⟩ : Elevator).current_floor ∧
    ((∀ d, (⟨0, 3, .MOVING .UP, [⟨.UP, 3⟩], 0⟩ : Elevator).state ≠ .MOVING d) →
      (Elevator.notify_reached_floor ⟨0, 3, .MOVING .UP, [⟨.UP, 3⟩], 0⟩ 7).2 =
        ⟨0, 3, .MOVING .UP, [⟨.UP, 3⟩], 0⟩) :=
  c10_current_floor_frame ⟨0, 3, .MOVING .UP, [⟨.UP, 3⟩], 0⟩ 1 7 ⟨.DOWN, 1⟩

/-! ### Claim C3 -/

theorem onTheWayPred_iff_candidate {e : Elevator} {direction : ElevatorDirection} {b : Bool}
    {r : ElevatorRequest} :
    onTheWayPred e direction b r = true ↔ onTheWayCandidate e direction b r := by
  unfold onTheWayPred onTheWayCandidate
  split_ifs with h1 h2
  · simp only [Bool.and_true, decide_eq_true_eq]
    constructor
    · intro hd
      exact ⟨hd, Or.inl h1.symm⟩
    · intro h
      exact h.1
  · simp only [Bool.and_eq_true, decide_eq_true_eq, Bool.or_eq_true]
    constructor
    · rintro ⟨hd, hdu, hb⟩
      exact ⟨hd, Or.inr (Or.inl ⟨hdu, h2, hb⟩)⟩
    · rintro ⟨hd, hfe | ⟨hdu, hlt, hb⟩ | ⟨hdd, hlt, hb⟩⟩
      · exact absurd hfe.symm h1
      · exact ⟨hd, hdu, hb⟩
      · exact absurd h2 (not_lt.2 (le_of_lt hlt))
  · have h3 : r.floor < e.current_floor := by omega
    simp only [Bool.and_eq_true, decide_eq_true_eq, Bool.or_eq_true]
    constructor
    · rintro ⟨hd, hdd, hb⟩
      exact ⟨hd, Or.inr (Or.inr ⟨hdd, h3, hb⟩)⟩
    · rintro ⟨hd, hfe | ⟨hdu, hlt, hb⟩ | ⟨hdd, hlt, hb⟩⟩
      · exact absurd hfe.symm h1
      · exact absurd hlt h2
      · exact ⟨hd, hdd, hb⟩

/-- C3: the on-the-way selection returns a request exactly when a candidate
exists — a pending request in the given direction at the current floor, or
between the current and target floor in the direction of travel when
is_at_target is false, or anywhere at/beyond the current floor in the
direction of travel when is_at_target is true — and the returned request has
minimum absolute floor distance from the current floor among all pending
candidates; concretely, a car MOVING(UP) at floor 1 with target 10 retargets
to 5 on the next advance once an UP request at floor 5 is pending. -/
theorem c3_on_the_way_spec (e : Elevator) (direction : ElevatorDirection) (b : Bool) :
    ((e.get_target_on_the_way direction b).isSome ↔
      ∃ r ∈ e.request_buffer, onTheWayCandidate e direction b r) ∧
    (∀ r, e.get_target_on_the_way direction b = some r →
      r ∈ e.request_buffer ∧ onTheWayCandidate e direction b r ∧
        ∀ s ∈ e.request_buffer, onTheWayCandidate e direction b s →
          |e.current_floor - r.floor| ≤ |e.current_floor - s.floor|) ∧
    Elevator.state_loop ⟨1, 10, .MOVING .UP, [⟨.UP, 5⟩, ⟨.UP, 10⟩], 0⟩ 1 =
      some ⟨1, 5, .MOVING .UP, [⟨.UP, 5⟩, ⟨.UP, 10⟩], 0⟩ := by
  refine ⟨?_, ?_, by decide⟩
  · rw [get_target_on_the_way_isSome]
    constructor
    · rintro ⟨r, hr, hp⟩
      exact ⟨r, hr, onTheWayPred_iff_candidate.1 hp⟩
    · rintro ⟨r, hr, hc⟩
      exact ⟨r, hr, onTheWayPred_iff_candidate.2 hc⟩
  · intro r h
    obtain ⟨h1, h2, h3⟩ := get_target_on_the_way_some_spec h
    exact ⟨h1, onTheWayPred_iff_candidate.1 h2,
      fun s hs hcs => h3 s hs (onTheWayPred_iff_candidate.2 hcs)⟩

/-- Witness for C3 at the concrete en-route pickup state. -/
theorem c3_on_the_way_spec_witness :
    ((Elevator.get_target_on_the_way ⟨1, 10, .MOVING .UP, [⟨.UP, 5⟩, ⟨.UP, 10⟩], 0⟩
        .UP false).isSome ↔
      ∃ r ∈ (⟨1, 10, .MOVING .UP, [⟨.UP, 5⟩, ⟨.UP, 10⟩], 0⟩ : Elevator).request_buffer,
        onTheWayCandidate ⟨1, 10, .MOVING .UP, [⟨.UP, 5⟩, ⟨.UP, 10⟩], 0⟩ .UP false r) ∧
    (∀ r, Elevator.get_target_on_the_way ⟨1, 10, .MOVING .UP, [⟨.UP, 5⟩, ⟨.UP, 10⟩], 0⟩
        .UP false = some r →
      r ∈ (⟨1, 10, .MOVING .UP, [⟨.UP, 5⟩, ⟨.UP, 10⟩], 0⟩ : Elevator).request_buffer ∧
        onTheWayCandidate ⟨1, 10, .MOVING .UP, [⟨.UP, 5⟩, ⟨.UP, 10⟩], 0⟩ .UP false r ∧
        ∀ s ∈ (⟨1, 10, .MOVING .UP, [⟨.UP, 5⟩, ⟨.UP, 10⟩], 0⟩ : Elevator).request_buffer,
          onTheWayCandidate ⟨1, 10, .MOVING .UP, [⟨.UP, 5⟩, ⟨.UP, 10⟩], 0⟩ .UP false s →
            |(1 : Int) - r.floor| ≤ |(1 : Int) - s.floor|) ∧
    Elevator.state_loop ⟨1, 10, .MOVING .UP, [⟨.UP, 5⟩, ⟨.UP, 10⟩], 0⟩ 1 =
      some ⟨1, 5, .MOVING .UP, [⟨.UP, 5⟩, ⟨.UP, 10⟩], 0⟩ :=
  c3_on_the_way_spec ⟨1, 10, .MOVING .UP, [⟨.UP, 5⟩, ⟨.UP, 10⟩], 0⟩ .UP false

/-! ### Claim C4 -/

/-- C4: advance in IDLE does nothing on an empty request set; otherwise the
idle policy picks the minimum-floor UP request when one exists, else the
maximum-floor DOWN request; the target becomes its floor; a request at the
current floor is removed and the state becomes WAITING(its direction, CLOSED)
with no MOVING phase, otherwise the state becomes MOVING(UP) when the floor is
above the current floor and MOVING(DOWN) when below. -/
theorem c4_idle_advance_spec (e : Elevator) (dt : Rat) (hs : e.state = .IDLE) :
    (e.request_buffer = [] → e.state_loop dt = some e) ∧
    (e.request_buffer ≠ [] → (e.get_next_request_on_idle).isSome) ∧
    (∀ R, e.get_next_request_on_idle = some R →
      R ∈ e.request_buffer ∧
      ((∃ s ∈ e.request_buffer, s.direction = .UP) →
        R.direction = .UP ∧ ∀ s ∈ e.request_buffer, s.direction = .UP → R.floor ≤ s.floor) ∧
      ((∀ s ∈ e.request_buffer, s.direction ≠ .UP) →
        R.direction = .DOWN ∧ ∀ s ∈ e.request_buffer, s.direction = .DOWN → s.floor ≤ R.floor) ∧
      (R.floor = e.current_floor →
        e.state_loop dt = some { e with
                                 target_floor := R.floor,
                                 request_buffer := e.request_buffer.erase R,
                                 state := .WAITING R.direction .CLOSED }) ∧
      (R.floor ≠ e.current_floor →
        e.state_loop dt = some { e with
                                 target_floor := R.floor,
                                 state := .MOVING
                                   (if e.current_floor < R.floor then .UP else .DOWN) })) := by
  refine ⟨fun hempty => ?_, fun hne => ?_, fun R hR => ?_⟩
  · have hnone : e.get_next_request_on_idle = none := by
      unfold Elevator.get_next_request_on_idle Elevator.get_first_target_in_direction
      rw [hempty]
      rfl
    simp only [Elevator.state_loop, hs]
    rw [hnone]
  · unfold Elevator.get_next_request_on_idle
    cases h1 : e.get_first_target_in_direction .UP with
    | some r1 => simp
    | none =>
      rcases List.exists_mem_of_ne_nil _ hne with ⟨r, hr⟩
      have hnoup : ¬∃ s ∈ e.request_buffer, s.direction = ElevatorDirection.UP := by
        intro hex
        have := get_first_target_isSome.2 hex
        rw [h1] at this
        simp at this
      have hrd : r.direction = .DOWN := by
        cases hrd : r.direction with
        | UP => exact absurd ⟨r, hr, hrd⟩ hnoup
        | DOWN => rfl
      exact get_first_target_isSome.2 ⟨r, hr, hrd⟩
  · have hmem : R ∈ e.request_buffer := on_idle_some_mem hR
    have hchar :
        ((∃ s ∈ e.request_buffer, s.direction = ElevatorDirection.UP) →
          R.direction = .UP ∧
            ∀ s ∈ e.request_buffer, s.direction = .UP → R.floor ≤ s.floor) ∧
        ((∀ s ∈ e.request_buffer, s.direction ≠ ElevatorDirection.UP) →
          R.direction = .DOWN ∧
            ∀ s ∈ e.request_buffer, s.direction = .DOWN → s.floor ≤ R.floor) := by
      unfold Elevator.get_next_request_on_idle at hR
      cases h1 : e.get_first_target_in_direction .UP with
      | some r1 =>
        rw [h1] at hR
        simp only [Option.some.injEq] at hR
        subst hR
        obtain ⟨hm, hd, hmin, _⟩ := get_first_target_some_spec h1
        constructor
        · intro _
          exact ⟨hd, hmin rfl⟩
        · intro hnoup
          exact absurd hd (hnoup _ hm)
      | none =>
        rw [h1] at hR
        obtain ⟨hm, hd, _, hmax⟩ := get_first_target_some_spec hR
        constructor
        · intro hex
          have := get_first_target_isSome.2 hex
          rw [h1] at this
          simp at this
        · intro _
          exact ⟨hd, hmax rfl⟩
    refine ⟨hmem, hchar.1, hchar.2, fun hfe => ?_, fun hfne => ?_⟩
    · simp only [Elevator.state_loop, hs, hR]
      rw [if_pos hfe.symm]
    · have hrec : R.recalculate_direction e.current_floor =
          if e.current_floor < R.floor then ElevatorDirection.UP else .DOWN := by
        unfold ElevatorRequest.recalculate_direction
        rw [if_neg (show ¬e.current_floor = R.floor from fun hh => hfne hh.symm)]
      simp only [Elevator.state_loop, hs, hR]
      rw [if_neg (show ¬e.current_floor = R.floor from fun hh => hfne hh.symm), hrec]

/-- Witness for C4 at a concrete IDLE elevator with one UP request. -/
theorem c4_idle_advance_spec_witness :
    ((⟨0, 0, .IDLE, [⟨.UP, 3⟩], 0⟩ : Elevator).request_buffer = [] →
      Elevator.state_loop ⟨0, 0, .IDLE, [⟨.UP, 3⟩], 0⟩ 1 =
        some ⟨0, 0, .IDLE, [⟨.UP, 3⟩], 0⟩) ∧
    ((⟨0, 0, .IDLE, [⟨.UP, 3⟩], 0⟩ : Elevator).request_buffer ≠ [] →
      (Elevator.get_next_request_on_idle ⟨0, 0, .IDLE, [⟨.UP, 3⟩], 0⟩).isSome) ∧
    (∀ R, Elevator.get_next_request_on_idle ⟨0, 0, .IDLE, [⟨.UP, 3⟩], 0⟩ = some R →
      R ∈ (⟨0, 0, .IDLE, [⟨.UP, 3⟩], 0⟩ : Elevator).request_buffer ∧
      ((∃ s ∈ (⟨0, 0, .IDLE, [⟨.UP, 3⟩], 0⟩ : Elevator).request_buffer,
          s.direction = .UP) →
        R.direction = .UP ∧
          ∀ s ∈ (⟨0, 0, .IDLE, [⟨.UP, 3⟩], 0⟩ : Elevator).request_buffer,
            s.direction = .UP → R.floor ≤ s.floor) ∧
      ((∀ s ∈ (⟨0, 0, .IDLE, [⟨.UP, 3⟩], 0⟩ : Elevator).request_buffer,
          s.direction ≠ .UP) →
        R.direction = .DOWN ∧
          ∀ s ∈ (⟨0, 0, .IDLE, [⟨.UP, 3⟩], 0⟩ : Elevator).request_buffer,
            s.direction = .DOWN → s.floor ≤ R.floor) ∧
      (R.floor = (0 : Int) →
        Elevator.state_loop ⟨0, 0, .IDLE, [⟨.UP, 3⟩], 0⟩ 1 =
          some { (⟨0, 0, .IDLE, [⟨.UP, 3⟩], 0⟩ : Elevator) with
                 target_floor := R.floor,
                 request_buffer :=
                   (⟨0, 0, .IDLE, [⟨.UP, 3⟩], 0⟩ : Elevator).request_buffer.erase R,
                 state := .WAITING R.direction .CLOSED }) ∧
      (R.floor ≠ (0 : Int) →
        Elevator.state_loop ⟨0, 0, .IDLE, [⟨.UP, 3⟩], 0⟩ 1 =
          some { (⟨0, 0, .IDLE, [⟨.UP, 3⟩], 0⟩ : Elevator) with
                 target_floor := R.floor,
                 state := .MOVING (if (0 : Int) < R.floor then .UP else .DOWN) })) :=
  c4_idle_advance_spec ⟨0, 0, .IDLE, [⟨.UP, 3⟩], 0⟩ 1 rfl

/-! ### Claim C2 -/

/-- C2 (counterexample): with the car at floor 5 after a DOWN run, a pending
UP request at floor 7 ≥ 5 and a more distant pending DOWN request at floor 0,
the post-wait policy with direction DOWN selects the DOWN request at floor 0
(any DOWN request at or below the current floor is on the way), not the UP
request. -/
theorem c2_post_wait_counterexample :
    Elevator.get_next_request_after_waiting
        ⟨5, 5, .WAITING .DOWN .CLOSED, [⟨.UP, 7⟩, ⟨.DOWN, 0⟩], 0⟩ .DOWN =
      some ⟨.DOWN, 0⟩ ∧
    (⟨.UP, 7⟩ : ElevatorRequest) ∈
      (⟨5, 5, .WAITING .DOWN .CLOSED, [⟨.UP, 7⟩, ⟨.DOWN, 0⟩], 0⟩ : Elevator).request_buffer ∧
    (5 : Int) ≤ 7 ∧
    |(5 : Int) - 0| > |(5 : Int) - 7| ∧
    (⟨.DOWN, 0⟩ : ElevatorRequest).direction ≠ ElevatorDirection.UP :=
  ⟨by decide, by decide, by decide, by decide, by decide⟩

/-- C2 (amended): when the post-wait policy runs with direction DOWN and every
pending DOWN request lies strictly above the current floor (none is on the
way), the presence of any pending UP request — in particular one at a floor ≥
the current floor — makes the policy select an UP request in preference to the
more distant DOWN requests; a pending DOWN request at or below the current
floor would instead be on the way and selected first. -/
theorem c2_post_wait_turnaround (e : Elevator)
    (hnodown : ∀ s ∈ e.request_buffer, s.direction = .DOWN → e.current_floor < s.floor)
    (u : ElevatorRequest) (hu : u ∈ e.request_buffer) (hud : u.direction = .UP) :
    ∃ w, e.get_next_request_after_waiting .DOWN = some w ∧ w.direction = .UP := by
  have hnone : e.get_target_on_the_way .DOWN true = none := by
    cases hw : e.get_target_on_the_way .DOWN true with
    | none => rfl
    | some r =>
      obtain ⟨hrmem, hrp, _⟩ := get_target_on_the_way_some_spec hw
      obtain ⟨hrd, _, hrdown⟩ := onTheWayPred_spec hrp
      have h1 := hnodown r hrmem hrd
      have h2 := hrdown rfl
      omega
  have hsome : (e.get_first_target_in_direction ElevatorDirection.DOWN.opposite).isSome :=
    get_first_target_isSome.2 ⟨u, hu, hud⟩
  cases h1 : e.get_first_target_in_direction ElevatorDirection.DOWN.opposite with
  | none => rw [h1] at hsome; simp at hsome
  | some w =>
    refine ⟨w, ?_, (get_first_target_some_spec h1).2.1⟩
    unfold Elevator.get_next_request_after_waiting
    rw [hnone, h1]

/-- Witness for C2 (amended): at floor 5 with UP at 7 and DOWN at 9 pending,
the post-wait policy after a DOWN run picks an UP request. -/
theorem c2_post_wait_turnaround_witness :
    ∃ w, Elevator.get_next_request_after_waiting
        ⟨5, 5, .WAITING .DOWN .CLOSED, [⟨.UP, 7⟩, ⟨.DOWN, 9⟩], 0⟩ .DOWN = some w ∧
      w.direction = .UP :=
  c2_post_wait_turnaround ⟨5, 5, .WAITING .DOWN .CLOSED, [⟨.UP, 7⟩, ⟨.DOWN, 9⟩], 0⟩
    (by decide) ⟨.UP, 7⟩ (by decide) rfl

/-! ### Claim C6 -/

theorem opposite_ne (d : ElevatorDirection) : d.opposite ≠ d := by
  cases d <;> simp [ElevatorDirection.opposite]

theorem remove_finished_request_buffer (e : Elevator) (d : ElevatorDirection) :
    ((⟨d, e.current_floor⟩ : ElevatorRequest) ∈ e.request_buffer →
      (e.remove_finished_request d).request_buffer =
        e.request_buffer.erase ⟨d, e.current_floor⟩) ∧
    ((⟨d, e.current_floor⟩ : ElevatorRequest) ∉ e.request_buffer →
      (⟨d.opposite, e.current_floor⟩ : ElevatorRequest) ∈ e.request_buffer →
      (e.remove_finished_request d).request_buffer =
        e.request_buffer.erase ⟨d.opposite, e.current_floor⟩) ∧
    ((⟨d, e.current_floor⟩ : ElevatorRequest) ∉ e.request_buffer →
      (⟨d.opposite, e.current_floor⟩ : ElevatorRequest) ∉ e.request_buffer →
      (e.remove_finished_request d).request_buffer = e.request_buffer) := by
  unfold Elevator.remove_finished_request
  split_ifs with h1 h2
  · exact ⟨fun _ => rfl, fun ha _ => absurd h1 ha, fun ha _ => absurd h1 ha⟩
  · exact ⟨fun ha => absurd ha h1, fun _ _ => rfl, fun _ hb => absurd h2 hb⟩
  · exact ⟨fun ha => absurd ha h1, fun _ hb => absurd hb h2, fun _ _ => rfl⟩

/-- C6 (counterexample): the claim as stated is false because an advance call
with dt ≥ 5.0 from a just-entered WAITING state (wait time 0) performs the
removal and also leaves WAITING in the same call: a reachable WAITING state
advanced with dt = 5.1 ends IDLE. -/
theorem c6_waiting_removal_counterexample :
    Reachable ⟨0, 0, .WAITING .UP .CLOSED, [], 0⟩ ∧
    (⟨0, 0, .WAITING .UP .CLOSED, [], 0⟩ : Elevator).waiting_time = 0 ∧
    Elevator.state_loop ⟨0, 0, .WAITING .UP .CLOSED, [], 0⟩ (51 / 10) =
      some ⟨0, 0, .IDLE, [], 0⟩ := by
  refine ⟨?_, rfl, by
    simp [Elevator.state_loop, Elevator.remove_finished_request,
      Elevator.get_next_request_after_waiting, Elevator.get_target_on_the_way,
      Elevator.get_first_target_in_direction, minByKey, maxByKey,
      ElevatorDirection.opposite]
    norm_num⟩
  have h0 : Reachable (Elevator.new.hall_call ⟨.UP, 0⟩).2 := .hall_call _ _ .init
  rw [show (Elevator.new.hall_call ⟨.UP, 0⟩).2 = ⟨0, 0, .IDLE, [⟨.UP, 0⟩], 0⟩ from by decide]
    at h0
  exact .advance _ 0 _ h0 (le_refl 0) (by decide)

/-- C6 (amended): on an advance call in WAITING(dir) with wait time 0 and
0 ≤ dt < 5.0, the request {dir, current_floor} is removed from the set if
present; only if it is absent is {opposite(dir), current_floor} removed if
present; at most one request is removed even when both are present; every
other request stays in the set; and the state remains WAITING.  (With dt ≥
5.0 the same removal happens but the dwell also expires in the same call, so
the state leaves WAITING.) -/
theorem c6_waiting_removal_spec (e : Elevator) (d : ElevatorDirection)
    (ds : ElevatorDoorsState) (dt : Rat) (hsw : e.state = .WAITING d ds)
    (hw0 : e.waiting_time = 0) (hdt0 : 0 ≤ dt) (hdt5 : dt < 5) :
    ∃ e', e.state_loop dt = some e' ∧ e'.state = .WAITING d ds ∧
      e'.request_buffer = (e.remove_finished_request d).request_buffer ∧
      ((⟨d, e.current_floor⟩ : ElevatorRequest) ∈ e.request_buffer →
        e'.request_buffer = e.request_buffer.erase ⟨d, e.current_floor⟩) ∧
      ((⟨d, e.current_floor⟩ : ElevatorRequest) ∉ e.request_buffer →
        (⟨d.opposite, e.current_floor⟩ : ElevatorRequest) ∈ e.request_buffer →
        e'.request_buffer = e.request_buffer.erase ⟨d.opposite, e.current_floor⟩) ∧
      ((⟨d, e.current_floor⟩ : ElevatorRequest) ∉ e.request_buffer →
        (⟨d.opposite, e.current_floor⟩ : ElevatorRequest) ∉ e.request_buffer →
        e'.request_buffer = e.request_buffer) ∧
      ((⟨d, e.current_floor⟩ : ElevatorRequest) ∈ e.request_buffer →
        (⟨d.opposite, e.current_floor⟩ : ElevatorRequest) ∈ e.request_buffer →
        (⟨d.opposite, e.current_floor⟩ : ElevatorRequest) ∈ e'.request_buffer) ∧
      (∀ r ∈ e.request_buffer, r ≠ ⟨d, e.current_floor⟩ →
        r ≠ ⟨d.opposite, e.current_floor⟩ → r ∈ e'.request_buffer) := by
  simp only [Elevator.state_loop, hsw]
  rw [if_pos hw0]
  have hwt : (e.remove_finished_request d).waiting_time = e.waiting_time :=
    (remove_finished_request_frame e d).2.2.2
  have hnth : ¬(5 : Rat) ≤ (e.remove_finished_request d).waiting_time + dt := by
    rw [hwt, hw0, zero_add]
    exact not_le.2 hdt5
  rw [if_neg hnth]
  refine ⟨_, rfl, ?_, rfl, ?_, ?_, ?_, ?_, ?_⟩
  · rw [show ({ e.remove_finished_request d with
        waiting_time := (e.remove_finished_request d).waiting_time + dt } : Elevator).state
        = (e.remove_finished_request d).state from rfl,
      (remove_finished_request_frame e d).2.2.1, hsw]
  · intro ha
    exact (remove_finished_request_buffer e d).1 ha
  · intro ha hb
    exact (remove_finished_request_buffer e d).2.1 ha hb
  · intro ha hb
    exact (remove_finished_request_buffer e d).2.2 ha hb
  · intro ha hb
    rw [(remove_finished_request_buffer e d).1 ha]
    exact (List.mem_erase_of_ne (by
      intro hcontra
      exact opposite_ne d (congrArg ElevatorRequest.direction hcontra))).2 hb
  · intro r hr hne1 hne2
    by_cases ha : (⟨d, e.current_floor⟩ : ElevatorRequest) ∈ e.request_buffer
    · rw [(remove_finished_request_buffer e d).1 ha]
      exact (List.mem_erase_of_ne hne1).2 hr
    · by_cases hb : (⟨d.opposite, e.current_floor⟩ : ElevatorRequest) ∈ e.request_buffer
      · rw [(remove_finished_request_buffer e d).2.1 ha hb]
        exact (List.mem_erase_of_ne hne2).2 hr
      · rw [(remove_finished_request_buffer e d).2.2 ha hb]
        exact hr

/-- Witness for C6 (amended) at a concrete WAITING state with both requests
at the current floor pending. -/
theorem c6_waiting_removal_spec_witness :
    ∃ e', Elevator.state_loop
        ⟨5, 5, .WAITING .UP .CLOSED, [⟨.UP, 5⟩, ⟨.DOWN, 5⟩, ⟨.UP, 9⟩], 0⟩ 1 = some e' ∧
      e'.state = .WAITING .UP .CLOSED ∧
      e'.request_buffer =
        (Elevator.remove_finished_request
          ⟨5, 5, .WAITING .UP .CLOSED, [⟨.UP, 5⟩, ⟨.DOWN, 5⟩, ⟨.UP, 9⟩], 0⟩ .UP).request_buffer ∧
      ((⟨.UP, 5⟩ : ElevatorRequest) ∈
          (⟨5, 5, .WAITING .UP .CLOSED, [⟨.UP, 5⟩, ⟨.DOWN, 5⟩, ⟨.UP, 9⟩], 0⟩ :
            Elevator).request_buffer →
        e'.request_buffer =
          (⟨5, 5, .WAITING .UP .CLOSED, [⟨.UP, 5⟩, ⟨.DOWN, 5⟩, ⟨.UP, 9⟩], 0⟩ :
            Elevator).request_buffer.erase ⟨.UP, 5⟩) ∧
      ((⟨.UP, 5⟩ : ElevatorRequest) ∉
          (⟨5, 5, .WAITING .UP .CLOSED, [⟨.UP, 5⟩, ⟨.DOWN, 5⟩, ⟨.UP, 9⟩], 0⟩ :
            Elevator).request_buffer →
        (⟨.DOWN, 5⟩ : ElevatorRequest) ∈
          (⟨5, 5, .WAITING .UP .CLOSED, [⟨.UP, 5⟩, ⟨.DOWN, 5⟩, ⟨.UP, 9⟩], 0⟩ :
            Elevator).request_buffer →
        e'.request_buffer =
          (⟨5, 5, .WAITING .UP .CLOSED, [⟨.UP, 5⟩, ⟨.DOWN, 5⟩, ⟨.UP, 9⟩], 0⟩ :
            Elevator).request_buffer.erase ⟨.DOWN, 5⟩) ∧
      ((⟨.UP, 5⟩ : ElevatorRequest) ∉
          (⟨5, 5, .WAITING .UP .CLOSED, [⟨.UP, 5⟩, ⟨.DOWN, 5⟩, ⟨.UP, 9⟩], 0⟩ :
            Elevator).request_buffer →
        (⟨.DOWN, 5⟩ : ElevatorRequest) ∉
          (⟨5, 5, .WAITING .UP .CLOSED, [⟨.UP, 5⟩, ⟨.DOWN, 5⟩, ⟨.UP, 9⟩], 0⟩ :
            Elevator).request_buffer →
        e'.request_buffer =
          (⟨5, 5, .WAITING .UP .CLOSED, [⟨.UP, 5⟩, ⟨.DOWN, 5⟩, ⟨.UP, 9⟩], 0⟩ :
            Elevator).request_buffer) ∧
      ((⟨.UP, 5⟩ : ElevatorRequest) ∈
          (⟨5, 5, .WAITING .UP .CLOSED, [⟨.UP, 5⟩, ⟨.DOWN, 5⟩, ⟨.UP, 9⟩], 0⟩ :
            Elevator).request_buffer →
        (⟨.DOWN, 5⟩ : ElevatorRequest) ∈
          (⟨5, 5, .WAITING .UP .CLOSED, [⟨.UP, 5⟩, ⟨.DOWN, 5⟩, ⟨.UP, 9⟩], 0⟩ :
            Elevator).request_buffer →
        (⟨.DOWN, 5⟩ : ElevatorRequest) ∈ e'.request_buffer) ∧
      (∀ r ∈ (⟨5, 5, .WAITING .UP .CLOSED, [⟨.UP, 5⟩, ⟨.DOWN, 5⟩, ⟨.UP, 9⟩], 0⟩ :
          Elevator).request_buffer, r ≠ ⟨.UP, 5⟩ → r ≠ ⟨.DOWN, 5⟩ →
        r ∈ e'.request_buffer) :=
  c6_waiting_removal_spec ⟨5, 5, .WAITING .UP .CLOSED, [⟨.UP, 5⟩, ⟨.DOWN, 5⟩, ⟨.UP, 9⟩], 0⟩
    .UP .CLOSED 1 rfl rfl (by norm_num) (by norm_num)

/-! ### Claim C5 -/

/-- C5: on every reachable state the wait time is nonnegative, below 5.0 and
zero outside WAITING (so WAITING is always entered with wait time 0); while
WAITING, an advance with 0 ≤ dt keeping the accumulated wait below 5.0 leaves
the car WAITING with the wait time increased by exactly dt (dt = 0 accumulates
nothing) and floors unchanged; when the accumulated wait reaches or exceeds
5.0 the wait time resets to 0 and the car leaves WAITING — to MOVING with the
target set to the chosen request floor and the direction recomputed from the
current floor when the post-wait policy finds a request, else to IDLE. -/
theorem c5_dwell_spec (e : Elevator) (he : Reachable e) :
    (0 ≤ e.waiting_time ∧ e.waiting_time < 5 ∧
      (isWaitingState e.state = false → e.waiting_time = 0)) ∧
    (∀ d ds (dt : Rat), e.state = .WAITING d ds → 0 ≤ dt →
      (e.waiting_time + dt < 5 →
        ∃ e', e.state_loop dt = some e' ∧ e'.state = .WAITING d ds ∧
          e'.waiting_time = e.waiting_time + dt ∧
          e'.current_floor = e.current_floor ∧ e'.target_floor = e.target_floor) ∧
      (5 ≤ e.waiting_time + dt →
        ∃ e', e.state_loop dt = some e' ∧ e'.waiting_time = 0 ∧
          isWaitingState e'.state = false ∧ e'.current_floor = e.current_floor ∧
          (∀ R, Elevator.get_next_request_after_waiting
              { (if e.waiting_time = 0 then e.remove_finished_request d else e) with
                waiting_time := 0 } d = some R →
            e'.state = .MOVING (R.recalculate_direction e.current_floor) ∧
            e'.target_floor = R.floor) ∧
          (Elevator.get_next_request_after_waiting
              { (if e.waiting_time = 0 then e.remove_finished_request d else e) with
                waiting_time := 0 } d = none →
            e'.state = .IDLE ∧ e'.target_floor = e.target_floor))) := by
  refine ⟨timeInv_of_reachable he, fun d ds dt hsw hdt => ⟨fun hlt => ?_, fun hge => ?_⟩⟩
  · simp only [Elevator.state_loop, hsw]
    set e1 := if e.waiting_time = 0 then e.remove_finished_request d else e with he1
    have he1wt : e1.waiting_time = e.waiting_time := by
      rw [he1]; split_ifs with h0
      · exact (remove_finished_request_frame e d).2.2.2
      · rfl
    have he1state : e1.state = e.state := by
      rw [he1]; split_ifs with h0
      · exact (remove_finished_request_frame e d).2.2.1
      · rfl
    have he1c : e1.current_floor = e.current_floor := by
      rw [he1]; split_ifs with h0
      · exact (remove_finished_request_frame e d).1
      · rfl
    have he1t : e1.target_floor = e.target_floor := by
      rw [he1]; split_ifs with h0
      · exact (remove_finished_request_frame e d).2.1
      · rfl
    rw [if_neg (show ¬(5 : Rat) ≤ e1.waiting_time + dt by
      rw [he1wt]; exact not_le.2 hlt)]
    refine ⟨_, rfl, ?_, ?_, ?_, ?_⟩
    · dsimp only
      rw [he1state, hsw]
    · dsimp only
      rw [he1wt]
    · dsimp only
      rw [he1c]
    · dsimp only
      rw [he1t]
  · simp only [Elevator.state_loop, hsw]
    set e1 := if e.waiting_time = 0 then e.remove_finished_request d else e with he1
    have he1wt : e1.waiting_time = e.waiting_time := by
      rw [he1]; split_ifs with h0
      · exact (remove_finished_request_frame e d).2.2.2
      · rfl
    have he1c : e1.current_floor = e.current_floor := by
      rw [he1]; split_ifs with h0
      · exact (remove_finished_request_frame e d).1
      · rfl
    have he1t : e1.target_floor = e.target_floor := by
      rw [he1]; split_ifs with h0
      · exact (remove_finished_request_frame e d).2.1
      · rfl
    rw [if_pos (show (5 : Rat) ≤ e1.waiting_time + dt by rw [he1wt]; exact hge)]
    cases hreq : Elevator.get_next_request_after_waiting { e1 with waiting_time := 0 } d with
    | some R =>
      refine ⟨_, rfl, rfl, rfl, ?_, ?_, ?_⟩
      · dsimp only
        rw [he1c]
      · intro R' hR'
        have hRR : R = R' := by
          injection hR'
        subst hRR
        constructor
        · dsimp only
          rw [he1c]
        · rfl
      · intro hcontra
        cases hcontra
    | none =>
      refine ⟨_, rfl, rfl, rfl, ?_, ?_, ?_⟩
      · dsimp only
        rw [he1c]
      · intro R' hR'
        cases hR'
      · intro _
        refine ⟨rfl, ?_⟩
        dsimp only
        rw [he1t]

/-- Witness for C5 at a concrete reachable WAITING state. -/
theorem c5_dwell_spec_witness :
    ((0 : Rat) ≤ (⟨0, 0, .WAITING .UP .CLOSED, [], 0⟩ : Elevator).waiting_time ∧
      (⟨0, 0, .WAITING .UP .CLOSED, [], 0⟩ : Elevator).waiting_time < 5 ∧
      (isWaitingState (⟨0, 0, .WAITING .UP .CLOSED, [], 0⟩ : Elevator).state = false →
        (⟨0, 0, .WAITING .UP .CLOSED, [], 0⟩ : Elevator).waiting_time = 0)) ∧
    (∀ d ds (dt : Rat),
      (⟨0, 0, .WAITING .UP .CLOSED, [], 0⟩ : Elevator).state = .WAITING d ds → 0 ≤ dt →
      ((⟨0, 0, .WAITING .UP .CLOSED, [], 0⟩ : Elevator).waiting_time + dt < 5 →
        ∃ e', Elevator.state_loop ⟨0, 0, .WAITING .UP .CLOSED, [], 0⟩ dt = some e' ∧
          e'.state = .WAITING d ds ∧
          e'.waiting_time =
            (⟨0, 0, .WAITING .UP .CLOSED, [], 0⟩ : Elevator).waiting_time + dt ∧
          e'.current_floor = (0 : Int) ∧ e'.target_floor = (0 : Int)) ∧
      (5 ≤ (⟨0, 0, .WAITING .UP .CLOSED, [], 0⟩ : Elevator).waiting_time + dt →
        ∃ e', Elevator.state_loop ⟨0, 0, .WAITING .UP .CLOSED, [], 0⟩ dt = some e' ∧
          e'.waiting_time = 0 ∧ isWaitingState e'.state = false ∧
          e'.current_floor = (0 : Int) ∧
          (∀ R, Elevator.get_next_request_after_waiting
              { (if (⟨0, 0, .WAITING .UP .CLOSED, [], 0⟩ : Elevator).waiting_time = 0 then
                  Elevator.remove_finished_request ⟨0, 0, .WAITING .UP .CLOSED, [], 0⟩ d
                else ⟨0, 0, .WAITING .UP .CLOSED, [], 0⟩) with
                waiting_time := 0 } d = some R →
            e'.state = .MOVING (R.recalculate_direction 0) ∧ e'.target_floor = R.floor) ∧
          (Elevator.get_next_request_after_waiting
              { (if (⟨0, 0, .WAITING .UP .CLOSED, [], 0⟩ : Elevator).waiting_time = 0 then
                  Elevator.remove_finished_request ⟨0, 0, .WAITING .UP .CLOSED, [], 0⟩ d
                else ⟨0, 0, .WAITING .UP .CLOSED, [], 0⟩) with
                waiting_time := 0 } d = none →
            e'.state = .IDLE ∧ e'.target_floor = (0 : Int)))) := by
  have h0 : Reachable (Elevator.new.hall_call ⟨.UP, 0⟩).2 := .hall_call _ _ .init
  rw [show (Elevator.new.hall_call ⟨.UP, 0⟩).2 = ⟨0, 0, .IDLE, [⟨.UP, 0⟩], 0⟩ from by decide]
    at h0
  have h1 : Reachable ⟨0, 0, .WAITING .UP .CLOSED, [], 0⟩ :=
    .advance _ 0 _ h0 (le_refl 0) (by decide)
  exact c5_dwell_spec ⟨0, 0, .WAITING .UP .CLOSED, [], 0⟩ h1

end ElevatorSim
